import Mathlib

/-!
Verification of the distributed-printing system (Ricart–Agrawala mutual
exclusion over Lamport clocks).

This file gives a shallow embedding of the repository's Python sources:

* src/client_node.py        — LamportClock, RAState, ClientNode (RA driver,
                              peer-facing RequestAccess/ReleaseAccess handlers,
                              broadcast/ack bookkeeping, request_and_print)
* src/printer_server.py     — PrintingService.SendToPrinter
* src/server/printer_server.py — PrintingServiceServicer.SendToPrinter
* src/client/printing_client.py — the alternative client variant with
                              immediate negative-grant replies

and, for the system-wide safety claim, an interleaving transition system over
any number of nodes whose per-node steps are the translated handler and
driver actions of client_node.py (with the no-failure executions assumed by
the claim: every RPC is eventually delivered and replied, no timeouts fire).
-/

namespace DistPrint

/-- States of the Ricart–Agrawala algorithm, from class RAState in
src/client_node.py. -/
inductive RAState where
  | RELEASED
  | WANTED
  | HELD
deriving DecidableEq, Repr

/-- Local-event operation of LamportClock.tick (src/client_node.py lines
52-56): increment the timestamp and return the new value. The returned value
equals the new stored value, so we model the operation as the new value. -/
def tick (ts : ℕ) : ℕ := ts + 1

/-- Receive-event operation of LamportClock.update_on_recv (src/client_node.py
lines 58-65): set the timestamp to max(local, received) + 1 and return it.
The LamportClock.update method of src/client/printing_client.py is the same
function. -/
def update_on_recv (ts incoming : ℕ) : ℕ := max ts incoming + 1

/-- One operation performed on a Lamport clock: a local tick or the receipt
of a message carrying some incoming timestamp. -/
inductive ClockOp where
  | tick
  | recv (incoming : ℕ)

/-- Apply one clock operation to a clock value. -/
def applyClockOp (ts : ℕ) : ClockOp → ℕ
  | .tick => tick ts
  | .recv m => update_on_recv ts m

/-- Trace of values held by a Lamport clock that starts at init and undergoes
a sequence of operations: the initial value followed by the value returned by
(and stored after) each operation. -/
def clockTrace (init : ℕ) : List ClockOp → List ℕ
  | [] => [init]
  | op :: ops => init :: clockTrace (applyClockOp init op) ops

/-- Wire message AccessRequest: client_id, lamport_timestamp, request_number. -/
structure AccessRequest where
  client_id : ℕ
  lamport_timestamp : ℕ
  request_number : ℕ
deriving DecidableEq, Repr

/-- Wire message AccessResponse: access_granted, lamport_timestamp. -/
structure AccessResponse where
  access_granted : Bool
  lamport_timestamp : ℕ
deriving DecidableEq, Repr

/-- Wire message AccessRelease: client_id, lamport_timestamp, request_number. -/
structure AccessRelease where
  client_id : ℕ
  lamport_timestamp : ℕ
  request_number : ℕ
deriving DecidableEq, Repr

/-- Wire message PrintRequest. -/
structure PrintRequest where
  client_id : ℕ
  message_content : String
  lamport_timestamp : ℕ
  request_number : ℕ
deriving DecidableEq, Repr

/-- Wire message PrintResponse. -/
structure PrintResponse where
  success : Bool
  confirmation_message : String
  lamport_timestamp : ℕ
deriving DecidableEq, Repr

/-- Lexicographic strict order on pairs, as Python compares 2-tuples with
the < operator; used for the priority key (lamport_timestamp, client_id). -/
def keyLt (a b : ℕ × ℕ) : Prop :=
  a.1 < b.1 ∨ (a.1 = b.1 ∧ a.2 < b.2)

instance (a b : ℕ × ℕ) : Decidable (keyLt a b) := by
  unfold keyLt; exact inferInstance

/-- Priority test ClientNode._is_my_request_higher_priority_than
(src/client_node.py lines 187-196): true when my current request exists and
its (timestamp, client_id) pair is lexicographically smaller than the
caller's. A missing request returns False. -/
def is_my_request_higher_priority_than
    (my_request : Option (ℕ × ℕ × ℕ)) (their_req : ℕ × ℕ × ℕ) : Bool :=
  match my_request with
  | none => false
  | some my => decide (keyLt (my.1, my.2.1) (their_req.1, their_req.2.1))

/-- Wait predicate of the deferral loop in ClientNode.RequestAccess
(src/client_node.py lines 155-169): the handler keeps waiting on the
condition while the node is HELD, or while it is WANTED and
_is_my_request_higher_priority_than holds for the caller's tuple; in every
other case the loop exits and the reply is sent. -/
def requestAccessWaits
    (state : RAState) (my_request : Option (ℕ × ℕ × ℕ))
    (their_req : ℕ × ℕ × ℕ) : Bool :=
  state == .HELD ||
    (state == .WANTED && is_my_request_higher_priority_than my_request their_req)

/-- Reply built at src/client_node.py lines 171-173 once the deferral loop
exits: tick the clock and answer access_granted=True with the new clock
value. -/
def requestAccessReply (clock : ℕ) : AccessResponse :=
  { access_granted := true, lamport_timestamp := tick clock }

/-- Grant decision and deferred-set update of
MutualExclusionServicer.RequestAccess in src/client/printing_client.py
(lines 39-63): after updating the Lamport clock with the caller's timestamp,
grant immediately when not requesting, or when the caller's
(timestamp, id) tuple is smaller than this client's; otherwise reply at once
with access_granted=False and add the caller to the deferred set. Returns
(access_granted, reply lamport_timestamp, new deferred set). -/
def servicerRequestAccess
    (lamport : ℕ) (requesting : Bool) (request_ts : ℕ) (self_id : ℕ)
    (deferred : List ℕ) (their_ts their_id : ℕ) : Bool × ℕ × List ℕ :=
  let l1 := update_on_recv lamport their_ts
  let gd : Bool × List ℕ :=
    if requesting = false then (true, deferred)
    else if keyLt (their_ts, their_id) (request_ts, self_id) then (true, deferred)
    else (false, their_id :: deferred)
  (gd.1, tick l1, gd.2)

/-- Handler MutualExclusionServicer.ReleaseAccess of
src/client/printing_client.py (lines 65-74): update the Lamport clock with
the sender's timestamp; the membership test on the deferred set does nothing,
and Empty is returned. Result is (new clock, deferred set). -/
def servicerReleaseAccess
    (lamport : ℕ) (deferred : List ℕ) (their_ts : ℕ) : ℕ × List ℕ :=
  (update_on_recv lamport their_ts, deferred)

/-- Handler PrintingService.SendToPrinter of src/printer_server.py (and
PrintingServiceServicer.SendToPrinter of src/server/printer_server.py): reply
success=True with a confirmation text and echo the request's
lamport_timestamp unchanged. The confirmation text (which interpolates the
simulated delay in one variant and the client id in the other) is passed in
as a parameter. -/
def SendToPrinter (request : PrintRequest) (confirmation : String) : PrintResponse :=
  { success := true
    confirmation_message := confirmation
    lamport_timestamp := request.lamport_timestamp }

/-- Per-node state of ClientNode (src/client_node.py, __init__): client id,
the peer set (modelled by its size, since the broadcast paths only use the
list of peers uniformly), the Lamport clock value, the RA state, the current
request tuple (lamport_ts, client_id, request_number), the attempt counter,
and the ack bookkeeping (pending_acks counter plus the all_acks_event flag). -/
structure ClientNode where
  client_id : ℕ
  peers : ℕ
  clock : ℕ
  state : RAState
  my_request : Option (ℕ × ℕ × ℕ)
  request_number : ℕ
  pending_acks : ℕ
  all_acks_set : Bool
deriving DecidableEq, Repr

/-- Fresh node as built by ClientNode.__init__: clock 0, state RELEASED,
no current request, request_number 0, no pending acks. -/
def ClientNode.init (client_id peers : ℕ) : ClientNode :=
  { client_id := client_id, peers := peers, clock := 0, state := .RELEASED
    my_request := none, request_number := 0, pending_acks := 0
    all_acks_set := false }

/-- Step 1 of ClientNode.request_and_print (src/client_node.py lines
289-292), performed under the state lock: set state to WANTED, increment
request_number, tick the clock, and store my_request as the triple
(new clock value, client_id, new request_number). -/
def enterWanted (nd : ClientNode) : ClientNode :=
  { nd with state := .WANTED
            request_number := nd.request_number + 1
            clock := tick nd.clock
            my_request := some (tick nd.clock, nd.client_id, nd.request_number + 1) }

/-- ClientNode._broadcast_request (src/client_node.py lines 201-219): set
pending_acks to the number of peers, clear all_acks_event, tick the clock
once more, and build the AccessRequest sent to every peer with that fresh
tick as its lamport_timestamp. Returns the updated node and the message. -/
def broadcast_request (nd : ClientNode) : ClientNode × AccessRequest :=
  ({ nd with pending_acks := nd.peers
             all_acks_set := false
             clock := tick nd.clock },
   { client_id := nd.client_id
     lamport_timestamp := tick nd.clock
     request_number := nd.request_number })

/-- ClientNode._critical_section_print (src/client_node.py lines 265-281):
tick the clock, send the PrintRequest; on a reply (printerReply = some
confirmation text) observe the echoed timestamp and return the response's
success flag and confirmation; on an RPC exception (printerReply = none)
return (false, failure text). The printer always echoes the request's
timestamp and replies success=True (see SendToPrinter). -/
def critical_section_print (nd : ClientNode) (content : String)
    (printerReply : Option String) (excText : String) :
    ClientNode × Bool × String :=
  let c := tick nd.clock
  let req : PrintRequest :=
    { client_id := nd.client_id, message_content := content
      lamport_timestamp := c, request_number := nd.request_number }
  match printerReply with
  | some confirmation =>
      let resp := SendToPrinter req confirmation
      ({ nd with clock := update_on_recv c resp.lamport_timestamp },
       resp.success, resp.confirmation_message)
  | none =>
      ({ nd with clock := c }, false, "Falha ao imprimir: " ++ excText)

/-- ClientNode._broadcast_release (src/client_node.py lines 243-252): tick
the clock and build the AccessRelease sent to every peer. -/
def broadcast_release (nd : ClientNode) : ClientNode × AccessRelease :=
  ({ nd with clock := tick nd.clock },
   { client_id := nd.client_id
     lamport_timestamp := tick nd.clock
     request_number := nd.request_number })

/-- Handler ClientNode.ReleaseAccess (src/client_node.py lines 175-182):
update the Lamport clock with the sender's timestamp and return Empty; no
other field is touched. -/
def ClientNode.ReleaseAccess (nd : ClientNode) (rel : AccessRelease) : ClientNode :=
  { nd with clock := update_on_recv nd.clock rel.lamport_timestamp }

/-- Driver ClientNode.request_and_print (src/client_node.py lines 286-313),
as executed by the driver thread with its concurrent inputs made explicit:
acksArrive says whether all_acks_event.wait returned True within the bound
(the ack threads having driven pending_acks to 0), printerReply/excText feed
the critical-section print. Returns the final node state, the list of
AccessRequest messages sent, the list of AccessRelease messages sent, and
the (ok, info) pair returned to the caller. On the timeout branch the code
returns immediately after the event wait: no state transition, no release
broadcast. On the success branch the acks have driven pending_acks to 0 and
set the event before the driver proceeds to HELD. -/
def request_and_print (nd : ClientNode) (content : String) (acksArrive : Bool)
    (printerReply : Option String) (excText : String) :
    ClientNode × List AccessRequest × List AccessRelease × Bool × String :=
  let nd1 := enterWanted nd
  let b := broadcast_request nd1
  let nd2 := b.1
  let reqs := List.replicate nd2.peers b.2
  if acksArrive then
    let nd3 := { nd2 with state := RAState.HELD, pending_acks := 0, all_acks_set := true }
    let cs := critical_section_print nd3 content printerReply excText
    let nd4 := cs.1
    let nd5 := { nd4 with state := RAState.RELEASED, my_request := none }
    let r := broadcast_release nd5
    (r.1, reqs, List.replicate r.1.peers r.2, cs.2.1, cs.2.2)
  else
    (nd2, reqs, [], false, "Timeout aguardando ACKs dos peers")

/-- Ack-completion bookkeeping of ClientNode._send_request_to_peer
(src/client_node.py lines 236-241): under the state lock, decrement
pending_acks and set all_acks_event when the counter reaches 0. The state is
the pair (pending_acks, event flag). -/
def on_ack_complete (st : ℕ × Bool) : ℕ × Bool :=
  (st.1 - 1, st.2 || (st.1 - 1 == 0))

/-- Bookkeeping state after _broadcast_request has initialised
pending_acks := number of peers and cleared the event, and then k of the
per-peer RPC calls have completed (replied or failed). -/
def acksState (peers k : ℕ) : ℕ × Bool :=
  on_ack_complete^[k] (peers, false)

/-- Holds when my_request is present exactly when the RA state is not
RELEASED (spec invariant 1). -/
def myRequestInv (nd : ClientNode) : Prop :=
  nd.my_request ≠ none ↔ nd.state ≠ RAState.RELEASED

lemma lt_applyClockOp : ∀ (ts : ℕ) (op : ClockOp), ts < applyClockOp ts op
  | ts, .tick => Nat.lt_succ_self ts
  | ts, .recv m => Nat.lt_succ_of_le (le_max_left ts m)

lemma le_of_mem_clockTrace :
    ∀ (ops : List ClockOp) (init x : ℕ), x ∈ clockTrace init ops → init ≤ x := by
  intro ops
  induction ops with
  | nil =>
      intro init x hx
      simp [clockTrace] at hx
      omega
  | cons op ops ih =>
      intro init x hx
      simp only [clockTrace, List.mem_cons] at hx
      rcases hx with rfl | hx
      · exact le_refl x
      · exact le_of_lt (lt_of_lt_of_le (lt_applyClockOp init op) (ih _ _ hx))

lemma pairwise_clockTrace :
    ∀ (ops : List ClockOp) (init : ℕ), List.Pairwise (· < ·) (clockTrace init ops) := by
  intro ops
  induction ops with
  | nil => intro init; simp [clockTrace]
  | cons op ops ih =>
      intro init
      simp only [clockTrace]
      refine List.Pairwise.cons ?_ (ih _)
      intro x hx
      exact lt_of_lt_of_le (lt_applyClockOp init op) (le_of_mem_clockTrace _ _ _ hx)

/-- Claim C8: the Lamport clock satisfies its operation contract. tick sets
the timestamp to its successor and returns the new value; update_on_recv
sets it to max(local, incoming) + 1 and returns the new value; each operation
strictly increases the clock, and along any sequence of operations every
stored/returned value is strictly greater than every earlier one (the trace
is strictly increasing, hence pairwise ordered). -/
theorem lamport_clock_contract :
    (∀ ts : ℕ, tick ts = ts + 1) ∧
    (∀ ts incoming : ℕ, update_on_recv ts incoming = max ts incoming + 1) ∧
    (∀ (ts : ℕ) (op : ClockOp), ts < applyClockOp ts op) ∧
    (∀ (init : ℕ) (ops : List ClockOp), List.Pairwise (· < ·) (clockTrace init ops)) :=
  ⟨fun _ => rfl, fun _ _ => rfl, lt_applyClockOp, fun init ops => pairwise_clockTrace ops init⟩

/-- Claim C9: handling an inbound ReleaseAccess changes only the Lamport
clock (by observing the message's timestamp) and returns Empty: ra_state,
my_request, request_number and the ack bookkeeping of the receiver are all
unchanged, in both the ClientNode handler and the printing_client servicer
(where the deferred set is also returned unchanged). -/
theorem release_access_clock_only :
    (∀ (nd : ClientNode) (rel : AccessRelease),
      (nd.ReleaseAccess rel).clock = update_on_recv nd.clock rel.lamport_timestamp ∧
      (nd.ReleaseAccess rel).state = nd.state ∧
      (nd.ReleaseAccess rel).my_request = nd.my_request ∧
      (nd.ReleaseAccess rel).request_number = nd.request_number ∧
      (nd.ReleaseAccess rel).pending_acks = nd.pending_acks ∧
      (nd.ReleaseAccess rel).all_acks_set = nd.all_acks_set ∧
      (nd.ReleaseAccess rel).client_id = nd.client_id ∧
      (nd.ReleaseAccess rel).peers = nd.peers) ∧
    (∀ (lamport : ℕ) (deferred : List ℕ) (their_ts : ℕ),
      servicerReleaseAccess lamport deferred their_ts =
        (update_on_recv lamport their_ts, deferred)) :=
  ⟨fun _ _ => ⟨rfl, rfl, rfl, rfl, rfl, rfl, rfl, rfl⟩, fun _ _ _ => rfl⟩

/-- Claim C10: the print server's SendToPrinter replies success=True and
echoes the request's lamport_timestamp unchanged, and a client's subsequent
update_on_recv of the echoed timestamp still strictly advances its clock. -/
theorem printer_echoes_timestamp :
    ∀ (request : PrintRequest) (confirmation : String) (clientClock : ℕ),
      (SendToPrinter request confirmation).success = true ∧
      (SendToPrinter request confirmation).lamport_timestamp = request.lamport_timestamp ∧
      clientClock <
        update_on_recv clientClock (SendToPrinter request confirmation).lamport_timestamp :=
  fun _ _ c => ⟨rfl, rfl, Nat.lt_succ_of_le (le_max_left c _)⟩

/-- Claim C7: the inbound RequestAccess handler waits on the state-change
condition exactly while the node is HELD, or WANTED holding a request tuple
whose (timestamp, node id) key is lexicographically smaller than the
caller's (timestamp, client id) key; in particular a RELEASED node never
waits and replies immediately. -/
theorem deferral_wait_predicate :
    ∀ (state : RAState) (my_request : Option (ℕ × ℕ × ℕ)) (their_req : ℕ × ℕ × ℕ),
      (requestAccessWaits state my_request their_req = true ↔
        (state = RAState.HELD ∨
          (state = RAState.WANTED ∧ ∃ t c r, my_request = some (t, c, r) ∧
            keyLt (t, c) (their_req.1, their_req.2.1)))) ∧
      requestAccessWaits RAState.RELEASED my_request their_req = false := by
  intro st mreq their
  constructor
  · cases st <;> rcases mreq with _ | ⟨t, c, r⟩ <;>
      simp [requestAccessWaits, is_my_request_higher_priority_than] <;>
      exact ⟨fun h => ⟨t, c, ⟨rfl, rfl⟩, h⟩,
             fun h => by
               obtain ⟨t1, c1, ⟨ht, hc⟩, hk⟩ := h
               rw [ht, hc]; exact hk⟩
  · rcases mreq with _ | ⟨t, c, r⟩ <;>
      simp [requestAccessWaits, is_my_request_higher_priority_than]

/-- Claim C3, counterexample: the MutualExclusionServicer variant in
src/client/printing_client.py replies immediately with access_granted=False
when the receiving client is requesting and its own (ts, id) tuple is not
beaten by the caller's: with local tuple (1, 1) and caller tuple (2, 2) the
reply carries access_granted=false. -/
theorem servicer_negative_grant :
    (servicerRequestAccess 0 true 1 1 [] 2 2).1 = false := by
  decide

/-- Claim C3, amended: in ClientNode.RequestAccess (src/client_node.py) the
reply always carries access_granted=True and deferral is a delayed reply;
but in the printing_client.py servicer the reply is immediate and carries
access_granted=True exactly when the receiver is not requesting or the
caller's (ts, id) tuple is smaller than the receiver's — otherwise it is a
negative vote access_granted=False. -/
theorem grant_reply_semantics :
    (∀ clock : ℕ, (requestAccessReply clock).access_granted = true) ∧
    (∀ (lamport : ℕ) (requesting : Bool) (request_ts self_id : ℕ)
        (deferred : List ℕ) (their_ts their_id : ℕ),
      (servicerRequestAccess lamport requesting request_ts self_id
          deferred their_ts their_id).1 = true ↔
        (requesting = false ∨ keyLt (their_ts, their_id) (request_ts, self_id))) := by
  constructor
  · intro _; rfl
  · intro lamport requesting request_ts self_id deferred their_ts their_id
    cases requesting <;>
      simp only [servicerRequestAccess] <;>
      by_cases h : keyLt (their_ts, their_id) (request_ts, self_id) <;>
      simp [h]

/-- Claim C2, counterexample: when the wait for the all-acks event times out,
request_and_print returns immediately: starting from a fresh node with one
peer, the returned state is still WANTED with my_request still set, no
ReleaseAccess message is broadcast, and the returned pair is
(false, timeout text) — not the WANTED-to-RELEASED transition, cleared
request, and release broadcast that the claim describes. -/
theorem timeout_leaves_wanted :
    (request_and_print (ClientNode.init 1 1) "m" false (some "ok") "e").1.state =
      RAState.WANTED ∧
    (request_and_print (ClientNode.init 1 1) "m" false (some "ok") "e").1.my_request =
      some (1, 1, 1) ∧
    (request_and_print (ClientNode.init 1 1) "m" false (some "ok") "e").2.2.1 = [] ∧
    (request_and_print (ClientNode.init 1 1) "m" false (some "ok") "e").2.2.2 =
      (false, "Timeout aguardando ACKs dos peers") :=
  ⟨rfl, rfl, rfl, rfl⟩

/-- Claim C2, amended: if the driver's wait for the grant-drain signal times
out, request_and_print returns (false, timeout message) at once: the node is
left in state WANTED with my_request still holding the request tuple,
the broadcast AccessRequest messages were sent, and no ReleaseAccess is
broadcast. -/
theorem timeout_branch_behavior :
    ∀ (nd : ClientNode) (content : String) (printerReply : Option String)
      (excText : String),
      request_and_print nd content false printerReply excText =
        ((broadcast_request (enterWanted nd)).1,
         List.replicate (broadcast_request (enterWanted nd)).1.peers
           (broadcast_request (enterWanted nd)).2,
         [], false, "Timeout aguardando ACKs dos peers") ∧
      (request_and_print nd content false printerReply excText).1.state =
        RAState.WANTED ∧
      (request_and_print nd content false printerReply excText).1.my_request =
        some (nd.clock + 1, nd.client_id, nd.request_number + 1) :=
  fun _ _ _ _ => ⟨rfl, rfl, rfl⟩

/-- Claim C4, counterexample: from a fresh node (clock 0) the
RELEASED-to-WANTED transition stores my_request = (1, 1, 1), but the
AccessRequest broadcast to the peers carries lamport_timestamp 2 — the
broadcast takes a second clock tick, so the message timestamp differs from
the ts stored in my_request. -/
theorem broadcast_ts_differs :
    (broadcast_request (enterWanted (ClientNode.init 1 1))).2.lamport_timestamp = 2 ∧
    (enterWanted (ClientNode.init 1 1)).my_request = some (1, 1, 1) ∧
    (2 : ℕ) ≠ 1 :=
  ⟨rfl, rfl, by decide⟩

/-- Claim C4, amended: on the RELEASED-to-WANTED transition the driver
increments request_number, ticks the clock obtaining ts, and stores
my_request = (ts, node id, request_number); _broadcast_request then resets
pending_acks to the full peer count, clears the event, and broadcasts an
AccessRequest whose lamport_timestamp is a fresh clock tick — equal to
ts + 1, strictly greater than the ts stored in my_request, not equal to it. -/
theorem wanted_transition_behavior :
    ∀ nd : ClientNode,
      (enterWanted nd).state = RAState.WANTED ∧
      (enterWanted nd).request_number = nd.request_number + 1 ∧
      (enterWanted nd).clock = tick nd.clock ∧
      (enterWanted nd).my_request =
        some (tick nd.clock, nd.client_id, nd.request_number + 1) ∧
      (broadcast_request (enterWanted nd)).1.pending_acks = nd.peers ∧
      (broadcast_request (enterWanted nd)).1.all_acks_set = false ∧
      (broadcast_request (enterWanted nd)).2.lamport_timestamp = tick nd.clock + 1 :=
  fun _ => ⟨rfl, rfl, rfl, rfl, rfl, rfl, rfl⟩

/-- Claim C5: my_request is non-null exactly when ra_state is not RELEASED,
at every quiescent point of the driver: after the WANTED transition, after
the broadcast, at the HELD entry, after every return path of
request_and_print (success or timeout), and at the initial state. -/
theorem my_request_iff_not_released :
    ∀ (nd : ClientNode) (content : String) (acksArrive : Bool)
      (printerReply : Option String) (excText : String) (cid p : ℕ),
      myRequestInv (enterWanted nd) ∧
      myRequestInv (broadcast_request (enterWanted nd)).1 ∧
      myRequestInv { (broadcast_request (enterWanted nd)).1 with
                      state := RAState.HELD, pending_acks := 0,
                      all_acks_set := true } ∧
      myRequestInv (request_and_print nd content acksArrive printerReply excText).1 ∧
      myRequestInv (ClientNode.init cid p) := by
  intro nd content acksArrive printerReply excText cid p
  refine ⟨?_, ?_, ?_, ?_, ?_⟩
  · simp [myRequestInv, enterWanted]
  · simp [myRequestInv, enterWanted, broadcast_request]
  · simp [myRequestInv, enterWanted, broadcast_request]
  · cases acksArrive <;>
      cases printerReply <;>
      simp [myRequestInv, request_and_print, enterWanted, broadcast_request,
            critical_section_print, broadcast_release]
  · simp [myRequestInv, ClientNode.init]

lemma acksState_snd :
    ∀ (k p : ℕ) (b : Bool),
      (on_ack_complete^[k] (p, b)).2 = (b || decide (1 ≤ k ∧ p ≤ k)) := by
  intro k
  induction k with
  | zero => intro p b; simp
  | succ k ih =>
      intro p b
      rw [Function.iterate_succ_apply, on_ack_complete, ih]
      cases b
      · rw [Bool.eq_iff_iff]
        simp only [Bool.or_eq_true, beq_iff_eq, decide_eq_true_eq,
                   Bool.false_eq_true, false_or]
        omega
      · simp

/-- Claim C6, counterexample: with an empty peer set, pending_acks starts at
0, no ack thread ever runs, and the drain event is never set even though all
zero broadcast calls have (vacuously) completed — the driver does not
unblock immediately; with one peer and one completion the event is set. -/
theorem empty_peers_event_never_set :
    (acksState 0 0).2 = false ∧ (acksState 1 1).2 = true :=
  ⟨rfl, rfl⟩

/-- Claim C6, amended: after k of the |peers| broadcast calls have completed
(k at most |peers|), the drain event is set if and only if all calls have
completed and the peer set is non-empty; with an empty peer set the event is
never set and the driver times out instead of unblocking immediately. -/
theorem drain_event_iff_all_completed (peers k : ℕ) (hk : k ≤ peers) :
    (acksState peers k).2 = true ↔ (k = peers ∧ 0 < peers) := by
  unfold acksState
  rw [acksState_snd]
  simp only [Bool.false_or, decide_eq_true_eq]
  omega

/-- Witness for the amended C6 theorem at peers = 2, k = 2. -/
theorem drain_event_iff_all_completed_witness :
    2 ≤ 2 ∧ ((acksState 2 2).2 = true ↔ (2 = 2 ∧ 0 < 2)) :=
  ⟨by decide, drain_event_iff_all_completed 2 2 (by decide)⟩

/-! Interleaving model of the whole system for the mutual-exclusion claim:
any number n of nodes running client_node.py, with per-node state and
per-ordered-pair message channels. Node i's current RequestAccess towards
peer j progresses idle → sent → recvd → ackSent → acked, mirroring the
broadcast thread (_broadcast_request / _send_request_to_peer) on i's side
and the RequestAccess handler on j's side. ReleaseAccess messages are
queues of timestamps, handled clock-only (ClientNode.ReleaseAccess). The
claim's assumption of unique node ids and no peer crashes is modelled by
Fin n ids and by the absence of RPC-failure/timeout transitions: every call
is eventually delivered and replied. -/

/-- Progress of one node's current AccessRequest at one peer: not sent,
sent (in flight), received by the peer's handler (its clock updated, the
handler possibly deferring in its wait loop), ackSent with the reply's
timestamp (handler exited the loop, ticked and replied access_granted=True),
or acked (requester observed the reply and counted the ack). -/
inductive RaChan where
  | idle
  | sent
  | recvd
  | ackSent (ts : ℕ)
  | acked
deriving DecidableEq, Repr

/-- Per-node protocol state: RA state, the timestamp of my_request (the
node id and request_number components are implicit: the id is the node's
index and request_number plays no ordering role), the lamport_timestamp
carried by the broadcast AccessRequest of the current attempt (none before
_broadcast_request runs), and the Lamport clock. -/
structure PNode where
  st : RAState
  req : Option ℕ
  msgts : Option ℕ
  clock : ℕ
deriving DecidableEq, Repr

/-- Global state: each node's state, the request channel for every ordered
pair (requester, peer), and the queue of in-flight ReleaseAccess timestamps
for every ordered pair (sender, peer). -/
structure Sys (n : ℕ) where
  node : Fin n → PNode
  reqch : Fin n → Fin n → RaChan
  relch : Fin n → Fin n → List ℕ

/-- Initial state: every node RELEASED with clock 0 and no request, all
channels empty. -/
def initSys (n : ℕ) : Sys n :=
  { node := fun _ => { st := RAState.RELEASED, req := none, msgts := none, clock := 0 }
    reqch := fun _ _ => RaChan.idle
    relch := fun _ _ => [] }

/-- Step 1 of request_and_print under the state lock: node i goes WANTED,
ticks its clock and stores the request tuple with the new clock value. -/
def applyStartRequest {n : ℕ} (s : Sys n) (i : Fin n) : Sys n :=
  { s with
      node :=
        Function.update s.node i
          ({ st := RAState.WANTED
             req := some (tick ((s.node i).clock))
             msgts := none
             clock := tick ((s.node i).clock) } : PNode) }

/-- ClientNode._broadcast_request: node i ticks its clock once more, the
AccessRequest carrying that fresh tick becomes in flight towards every
peer. -/
def applyBroadcast {n : ℕ} (s : Sys n) (i : Fin n) : Sys n :=
  { s with
      node :=
        Function.update s.node i
          ({ s.node i with
               msgts := some (tick ((s.node i).clock))
               clock := tick ((s.node i).clock) } : PNode)
      reqch := fun a b => if a = i ∧ b ≠ i then RaChan.sent else s.reqch a b }

/-- Start of the RequestAccess handler at peer j for node i's request with
message timestamp m: j updates its clock with m; the handler then sits in
its deferral loop. -/
def applyRecvRequest {n : ℕ} (s : Sys n) (i j : Fin n) (m : ℕ) : Sys n :=
  { s with
      node :=
        Function.update s.node j
          ({ s.node j with clock := update_on_recv ((s.node j).clock) m } : PNode)
      reqch := fun a b => if a = i ∧ b = j then RaChan.recvd else s.reqch a b }

/-- Exit of the deferral loop at peer j (requestAccessWaits is false for
node i's message key): j ticks its clock and replies access_granted=True
carrying the new clock value. -/
def applyGrant {n : ℕ} (s : Sys n) (i j : Fin n) : Sys n :=
  { s with
      node :=
        Function.update s.node j
          ({ s.node j with clock := tick ((s.node j).clock) } : PNode)
      reqch := fun a b =>
        if a = i ∧ b = j then RaChan.ackSent (tick ((s.node j).clock))
        else s.reqch a b }

/-- ClientNode._send_request_to_peer at requester i when peer j's reply
with timestamp a arrives: update the clock with a, count the ack. -/
def applyRecvAck {n : ℕ} (s : Sys n) (i j : Fin n) (a : ℕ) : Sys n :=
  { s with
      node :=
        Function.update s.node i
          ({ s.node i with clock := update_on_recv ((s.node i).clock) a } : PNode)
      reqch := fun x y => if x = i ∧ y = j then RaChan.acked else s.reqch x y }

/-- Step 3 of request_and_print: with every peer's ack counted, node i
enters the critical section. -/
def applyEnter {n : ℕ} (s : Sys n) (i : Fin n) : Sys n :=
  { s with
      node :=
        Function.update s.node i ({ s.node i with st := RAState.HELD } : PNode) }

/-- Step 4 of request_and_print under the condition lock: node i leaves the
critical section, clears my_request and wakes deferred handlers; the
attempt's request channels are spent. -/
def applyExitCS {n : ℕ} (s : Sys n) (i : Fin n) : Sys n :=
  { s with
      node :=
        Function.update s.node i
          ({ s.node i with st := RAState.RELEASED, req := none, msgts := none } : PNode)
      reqch := fun a b => if a = i then RaChan.idle else s.reqch a b }

/-- ClientNode._broadcast_release after the RELEASED transition: tick the
clock and enqueue the AccessRelease timestamp towards every peer. -/
def applySendRelease {n : ℕ} (s : Sys n) (i : Fin n) : Sys n :=
  { s with
      node :=
        Function.update s.node i
          ({ s.node i with clock := tick ((s.node i).clock) } : PNode)
      relch := fun a b =>
        if a = i ∧ b ≠ i then s.relch a b ++ [tick ((s.node i).clock)]
        else s.relch a b }

/-- ClientNode.ReleaseAccess at peer j: dequeue the release timestamp a from
sender i and update the clock with it; nothing else changes. -/
def applyRecvRelease {n : ℕ} (s : Sys n) (i j : Fin n) (a : ℕ) (r : List ℕ) : Sys n :=
  { s with
      node :=
        Function.update s.node j
          ({ s.node j with clock := update_on_recv ((s.node j).clock) a } : PNode)
      relch := fun x y => if x = i ∧ y = j then r else s.relch x y }

/-- One interleaved step of the system: each constructor is one atomic
lock-protected action of client_node.py, guarded exactly as the code is.
The grant guard is the requestAccessWaits predicate of the handler, applied
to j's state, j's my_request tuple and the caller's message key, with the
request_number components 0 since the comparison ignores them. -/
inductive Step {n : ℕ} : Sys n → Sys n → Prop where
  | startRequest (s : Sys n) (i : Fin n)
      (h : (s.node i).st = RAState.RELEASED) :
      Step s (applyStartRequest s i)
  | broadcast (s : Sys n) (i : Fin n)
      (h1 : (s.node i).st = RAState.WANTED) (h2 : (s.node i).msgts = none) :
      Step s (applyBroadcast s i)
  | recvRequest (s : Sys n) (i j : Fin n) (hij : i ≠ j) (m : ℕ)
      (hm : (s.node i).msgts = some m) (h : s.reqch i j = RaChan.sent) :
      Step s (applyRecvRequest s i j m)
  | grant (s : Sys n) (i j : Fin n) (hij : i ≠ j) (m : ℕ)
      (hm : (s.node i).msgts = some m) (h : s.reqch i j = RaChan.recvd)
      (hg : requestAccessWaits ((s.node j).st)
              (Option.map (fun t => (t, (j : ℕ), 0)) ((s.node j).req))
              (m, (i : ℕ), 0) = false) :
      Step s (applyGrant s i j)
  | recvAck (s : Sys n) (i j : Fin n) (hij : i ≠ j) (a : ℕ)
      (h : s.reqch i j = RaChan.ackSent a) :
      Step s (applyRecvAck s i j a)
  | enter (s : Sys n) (i : Fin n)
      (h1 : (s.node i).st = RAState.WANTED)
      (h2 : ∀ j, j ≠ i → s.reqch i j = RaChan.acked) :
      Step s (applyEnter s i)
  | exitCS (s : Sys n) (i : Fin n) (h : (s.node i).st = RAState.HELD) :
      Step s (applyExitCS s i)
  | sendRelease (s : Sys n) (i : Fin n)
      (h : (s.node i).st = RAState.RELEASED) :
      Step s (applySendRelease s i)
  | recvRelease (s : Sys n) (i j : Fin n) (hij : i ≠ j) (a : ℕ) (r : List ℕ)
      (h : s.relch i j = a :: r) :
      Step s (applyRecvRelease s i j a r)

/-- Reachability from the initial state by any finite schedule. -/
def Reachable {n : ℕ} (s : Sys n) : Prop :=
  Relation.ReflTransGen Step (initSys n) s

/-- The peer has received the request (handler started, clock observed). -/
def ChanRecvd (ch : RaChan) : Prop :=
  ch = RaChan.recvd ∨ (∃ a, ch = RaChan.ackSent a) ∨ ch = RaChan.acked

/-- The peer has granted the request (reply sent or already counted). -/
def ChanGranted (ch : RaChan) : Prop :=
  (∃ a, ch = RaChan.ackSent a) ∨ ch = RaChan.acked

/-- Inductive invariant of the protocol. self_idle: a node has no channel to
itself. released_clean: a RELEASED node has no request, no broadcast
message, and spent channels. active_req: a WANTED/HELD node has a request
timestamp bounded by its clock. msg_gt: the broadcast message timestamp is
strictly above the stored request timestamp. chan_msg: a live channel
implies the broadcast happened. recv_clock: once peer j received i's
message, j's clock is strictly above the message timestamp. granted_key:
once peer j granted i's current request, any current request of j has
strictly larger priority key than i's message key. held_acked: a HELD node
has been acked by every peer. -/
structure Inv {n : ℕ} (s : Sys n) : Prop where
  self_idle : ∀ i, s.reqch i i = RaChan.idle
  released_clean : ∀ i, (s.node i).st = RAState.RELEASED →
    (s.node i).req = none ∧ (s.node i).msgts = none ∧
      ∀ j, s.reqch i j = RaChan.idle
  active_req : ∀ i, (s.node i).st ≠ RAState.RELEASED →
    ∃ t, (s.node i).req = some t ∧ t ≤ (s.node i).clock
  msg_gt : ∀ i t m, (s.node i).req = some t → (s.node i).msgts = some m → t < m
  chan_msg : ∀ i j, s.reqch i j ≠ RaChan.idle → ∃ m, (s.node i).msgts = some m
  recv_clock : ∀ i j m, i ≠ j → (s.node i).msgts = some m →
    ChanRecvd (s.reqch i j) → m < (s.node j).clock
  granted_key : ∀ i j m t, i ≠ j → (s.node i).msgts = some m →
    (s.node j).req = some t → ChanGranted (s.reqch i j) →
    keyLt (m, (i : ℕ)) (t, (j : ℕ))
  held_acked : ∀ i j, (s.node i).st = RAState.HELD → j ≠ i →
    s.reqch i j = RaChan.acked

lemma keyLt_of_not_keyLt {a b : ℕ × ℕ} (hne : a ≠ b) (h : ¬ keyLt a b) : keyLt b a := by
  rcases a with ⟨a1, a2⟩
  rcases b with ⟨b1, b2⟩
  simp only [keyLt, not_or, not_and, ne_eq, Prod.mk.injEq] at *
  omega

lemma keyLt_of_lt_left {a1 b1 : ℕ} (h : a1 < b1) (a2 b2 : ℕ) : keyLt (a1, a2) (b1, b2) :=
  Or.inl h

lemma keyLt_le_left {a b : ℕ × ℕ} (h : keyLt a b) : a.1 ≤ b.1 := by
  rcases h with h | ⟨h, _⟩
  · exact le_of_lt h
  · exact le_of_eq h

lemma chanRecvd_of_granted {ch : RaChan} (h : ChanGranted ch) : ChanRecvd ch := by
  rcases h with h | h
  · exact Or.inr (Or.inl h)
  · exact Or.inr (Or.inr h)

lemma waits_false_elim {st : RAState} {req : Option ℕ} {jj ii m : ℕ}
    (hg : requestAccessWaits st (Option.map (fun t => (t, jj, 0)) req) (m, ii, 0) = false) :
    st ≠ RAState.HELD ∧
      ∀ t, st = RAState.WANTED → req = some t → ¬ keyLt (t, jj) (m, ii) := by
  cases st <;> rcases req with _ | t <;>
    simp [requestAccessWaits, is_my_request_higher_priority_than] at hg ⊢ <;>
    simp [hg]

lemma clock_mono {n : ℕ} {s s2 : Sys n} (hstep : Step s s2) (k : Fin n) :
    (s.node k).clock ≤ (s2.node k).clock := by
  cases hstep with
  | startRequest i h =>
      by_cases hk : k = i
      · subst hk; simp [applyStartRequest, tick]
      · simp [applyStartRequest, Function.update_noteq hk]
  | broadcast i h1 h2 =>
      by_cases hk : k = i
      · subst hk; simp [applyBroadcast, tick]
      · simp [applyBroadcast, Function.update_noteq hk]
  | recvRequest i j hij m hm h =>
      by_cases hk : k = j
      · subst hk
        simp [applyRecvRequest, update_on_recv]
        omega
      · simp [applyRecvRequest, Function.update_noteq hk]
  | grant i j hij m hm h hg =>
      by_cases hk : k = j
      · subst hk; simp [applyGrant, tick]
      · simp [applyGrant, Function.update_noteq hk]
  | recvAck i j hij a h =>
      by_cases hk : k = i
      · subst hk
        simp [applyRecvAck, update_on_recv]
        omega
      · simp [applyRecvAck, Function.update_noteq hk]
  | enter i h1 h2 =>
      by_cases hk : k = i
      · subst hk; simp [applyEnter]
      · simp [applyEnter, Function.update_noteq hk]
  | exitCS i h =>
      by_cases hk : k = i
      · subst hk; simp [applyExitCS]
      · simp [applyExitCS, Function.update_noteq hk]
  | sendRelease i h =>
      by_cases hk : k = i
      · subst hk; simp [applySendRelease, tick]
      · simp [applySendRelease, Function.update_noteq hk]
  | recvRelease i j hij a r h =>
      by_cases hk : k = j
      · subst hk
        simp [applyRecvRelease, update_on_recv]
        omega
      · simp [applyRecvRelease, Function.update_noteq hk]

lemma inv_startRequest {n : ℕ} {s : Sys n} (hI : Inv s) (i : Fin n)
    (h : (s.node i).st = RAState.RELEASED) : Inv (applyStartRequest s i) := by
  obtain ⟨hreq, hmsg, hch⟩ := hI.released_clean i h
  refine ⟨?_, ?_, ?_, ?_, ?_, ?_, ?_, ?_⟩
  · intro k
    exact hI.self_idle k
  · intro k hk
    by_cases hki : k = i
    · subst hki
      simp [applyStartRequest, Function.update_same] at hk
    · simp only [applyStartRequest, Function.update_noteq hki] at hk ⊢
      exact hI.released_clean k hk
  · intro k hk
    by_cases hki : k = i
    · subst hki
      refine ⟨tick ((s.node k).clock), ?_, ?_⟩ <;>
        simp [applyStartRequest, Function.update_same]
    · simp only [applyStartRequest, Function.update_noteq hki] at hk ⊢
      exact hI.active_req k hk
  · intro k t m hkt hkm
    by_cases hki : k = i
    · subst hki
      simp [applyStartRequest, Function.update_same] at hkm
    · simp only [applyStartRequest, Function.update_noteq hki] at hkt hkm
      exact hI.msg_gt k t m hkt hkm
  · intro k j hkj
    by_cases hki : k = i
    · subst hki
      simp only [applyStartRequest] at hkj
      exact absurd (hch j) hkj
    · simp only [applyStartRequest, Function.update_noteq hki]
      exact hI.chan_msg k j hkj
  · intro k j m hkj hkm hkr
    by_cases hki : k = i
    · subst hki
      simp [applyStartRequest, Function.update_same] at hkm
    · simp only [applyStartRequest, Function.update_noteq hki] at hkm
      by_cases hji : j = i
      · subst hji
        have := hI.recv_clock k j m hkj hkm hkr
        simp only [applyStartRequest, Function.update_same, tick]
        omega
      · simp only [applyStartRequest, Function.update_noteq hji]
        exact hI.recv_clock k j m hkj hkm hkr
  · intro k j m t hkj hkm hkt hkg
    by_cases hki : k = i
    · subst hki
      simp [applyStartRequest, Function.update_same] at hkm
    · simp only [applyStartRequest, Function.update_noteq hki] at hkm
      by_cases hji : j = i
      · subst hji
        simp only [applyStartRequest, Function.update_same, Option.some.injEq] at hkt
        have hclock := hI.recv_clock k j m hkj hkm (chanRecvd_of_granted hkg)
        rw [← hkt]
        exact keyLt_of_lt_left (by simp [tick]; omega) _ _
      · simp only [applyStartRequest, Function.update_noteq hji] at hkt
        exact hI.granted_key k j m t hkj hkm hkt hkg
  · intro k j hk hj
    by_cases hki : k = i
    · subst hki
      simp [applyStartRequest, Function.update_same] at hk
    · simp only [applyStartRequest, Function.update_noteq hki] at hk
      exact hI.held_acked k j hk hj

lemma inv_broadcast {n : ℕ} {s : Sys n} (hI : Inv s) (i : Fin n)
    (h1 : (s.node i).st = RAState.WANTED) (h2 : (s.node i).msgts = none) :
    Inv (applyBroadcast s i) := by
  have hch : ∀ j, s.reqch i j = RaChan.idle := by
    intro j
    by_contra hne
    obtain ⟨m, hm⟩ := hI.chan_msg i j hne
    rw [h2] at hm
    exact Option.noConfusion hm
  obtain ⟨ti, hti, htic⟩ := hI.active_req i (by rw [h1]; exact fun hcc => RAState.noConfusion hcc)
  refine ⟨?_, ?_, ?_, ?_, ?_, ?_, ?_, ?_⟩
  · intro k
    simp only [applyBroadcast]
    rw [if_neg (by tauto)]
    exact hI.self_idle k
  · intro k hk
    by_cases hki : k = i
    · subst hki
      simp [applyBroadcast, Function.update_same] at hk
      rw [hk] at h1
      exact RAState.noConfusion h1
    · simp only [applyBroadcast, Function.update_noteq hki] at hk ⊢
      obtain ⟨ha, hb, hc⟩ := hI.released_clean k hk
      refine ⟨ha, hb, ?_⟩
      intro j
      rw [if_neg (by tauto)]
      exact hc j
  · intro k hk
    by_cases hki : k = i
    · subst hki
      simp only [applyBroadcast, Function.update_same] at hk ⊢
      exact ⟨ti, hti, by simp [tick]; omega⟩
    · simp only [applyBroadcast, Function.update_noteq hki] at hk ⊢
      exact hI.active_req k hk
  · intro k t m hkt hkm
    by_cases hki : k = i
    · subst hki
      simp only [applyBroadcast, Function.update_same, Option.some.injEq] at hkt hkm
      rw [hti] at hkt
      injection hkt with hkt
      rw [← hkm, ← hkt, tick]
      omega
    · simp only [applyBroadcast, Function.update_noteq hki] at hkt hkm
      exact hI.msg_gt k t m hkt hkm
  · intro k j hkj
    by_cases hki : k = i
    · subst hki
      simp [applyBroadcast, Function.update_same]
    · simp only [applyBroadcast, Function.update_noteq hki]
      simp only [applyBroadcast] at hkj
      rw [if_neg (by tauto)] at hkj
      exact hI.chan_msg k j hkj
  · intro k j m hkj hkm hkr
    by_cases hki : k = i
    · subst hki
      simp only [applyBroadcast] at hkr
      rw [if_pos ⟨by simp, fun hji => hkj hji.symm⟩] at hkr
      rcases hkr with hc | hc | hc
      · exact RaChan.noConfusion hc
      · obtain ⟨a, hc⟩ := hc
        exact RaChan.noConfusion hc
      · exact RaChan.noConfusion hc
    · simp only [applyBroadcast, Function.update_noteq hki] at hkm
      simp only [applyBroadcast] at hkr
      rw [if_neg (by tauto)] at hkr
      have hold := hI.recv_clock k j m hkj hkm hkr
      by_cases hji : j = i
      · subst hji
        simp only [applyBroadcast, Function.update_same, tick]
        omega
      · simp only [applyBroadcast, Function.update_noteq hji]
        exact hold
  · intro k j m t hkj hkm hkt hkg
    by_cases hki : k = i
    · subst hki
      simp only [applyBroadcast] at hkg
      rw [if_pos ⟨by simp, fun hji => hkj hji.symm⟩] at hkg
      rcases hkg with ⟨a, hc⟩ | hc
      · exact RaChan.noConfusion hc
      · exact RaChan.noConfusion hc
    · simp only [applyBroadcast, Function.update_noteq hki] at hkm
      simp only [applyBroadcast] at hkg
      rw [if_neg (by tauto)] at hkg
      by_cases hji : j = i
      · subst hji
        simp only [applyBroadcast, Function.update_same] at hkt
        exact hI.granted_key k j m t hkj hkm hkt hkg
      · simp only [applyBroadcast, Function.update_noteq hji] at hkt
        exact hI.granted_key k j m t hkj hkm hkt hkg
  · intro k j hk hj
    by_cases hki : k = i
    · subst hki
      simp only [applyBroadcast, Function.update_same] at hk
      rw [hk] at h1
      exact RAState.noConfusion h1
    · simp only [applyBroadcast, Function.update_noteq hki] at hk
      simp only [applyBroadcast]
      rw [if_neg (by tauto)]
      exact hI.held_acked k j hk hj

lemma inv_recvRequest {n : ℕ} {s : Sys n} (hI : Inv s) (i j : Fin n)
    (hij : i ≠ j) (m : ℕ) (hm : (s.node i).msgts = some m)
    (h : s.reqch i j = RaChan.sent) : Inv (applyRecvRequest s i j m) := by
  have hcm := clock_mono (Step.recvRequest s i j hij m hm h)
  have hstk : ∀ k, ((applyRecvRequest s i j m).node k).st = (s.node k).st := by
    intro k
    by_cases hk : k = j
    · subst hk; simp [applyRecvRequest, Function.update_same]
    · simp [applyRecvRequest, Function.update_noteq hk]
  have hreqk : ∀ k, ((applyRecvRequest s i j m).node k).req = (s.node k).req := by
    intro k
    by_cases hk : k = j
    · subst hk; simp [applyRecvRequest, Function.update_same]
    · simp [applyRecvRequest, Function.update_noteq hk]
  have hmsgk : ∀ k, ((applyRecvRequest s i j m).node k).msgts = (s.node k).msgts := by
    intro k
    by_cases hk : k = j
    · subst hk; simp [applyRecvRequest, Function.update_same]
    · simp [applyRecvRequest, Function.update_noteq hk]
  have hchan : ∀ a b, (applyRecvRequest s i j m).reqch a b =
      if a = i ∧ b = j then RaChan.recvd else s.reqch a b := fun _ _ => rfl
  refine ⟨?_, ?_, ?_, ?_, ?_, ?_, ?_, ?_⟩
  · intro k
    rw [hchan, if_neg (fun hc => hij (hc.1.symm.trans hc.2))]
    exact hI.self_idle k
  · intro k hk
    rw [hstk] at hk
    by_cases hki : k = i
    · subst hki
      have hidle := (hI.released_clean k hk).2.2 j
      rw [h] at hidle
      exact RaChan.noConfusion hidle
    · obtain ⟨ha, hb, hc⟩ := hI.released_clean k hk
      refine ⟨by rw [hreqk]; exact ha, by rw [hmsgk]; exact hb, ?_⟩
      intro jj
      rw [hchan, if_neg (fun hcc => hki hcc.1)]
      exact hc jj
  · intro k hk
    rw [hstk] at hk
    obtain ⟨t, ht, htc⟩ := hI.active_req k hk
    exact ⟨t, by rw [hreqk]; exact ht, le_trans htc (hcm k)⟩
  · intro k t m2 hkt hkm
    rw [hreqk] at hkt
    rw [hmsgk] at hkm
    exact hI.msg_gt k t m2 hkt hkm
  · intro k jj hne
    rw [hchan] at hne
    by_cases hc : k = i ∧ jj = j
    · obtain ⟨hc1, _⟩ := hc
      subst hc1
      exact ⟨m, by rw [hmsgk]; exact hm⟩
    · rw [if_neg hc] at hne
      obtain ⟨m2, hm2⟩ := hI.chan_msg k jj hne
      exact ⟨m2, by rw [hmsgk]; exact hm2⟩
  · intro k jj m2 hkjj hkm hkr
    rw [hmsgk] at hkm
    rw [hchan] at hkr
    by_cases hc : k = i ∧ jj = j
    · obtain ⟨hc1, hc2⟩ := hc
      subst hc1
      subst hc2
      rw [hm] at hkm
      injection hkm with hkm
      simp only [applyRecvRequest, Function.update_same, update_on_recv]
      omega
    · rw [if_neg hc] at hkr
      exact lt_of_lt_of_le (hI.recv_clock k jj m2 hkjj hkm hkr) (hcm jj)
  · intro k jj m2 t hkjj hkm hkt hkg
    rw [hmsgk] at hkm
    rw [hreqk] at hkt
    rw [hchan] at hkg
    by_cases hc : k = i ∧ jj = j
    · obtain ⟨hc1, hc2⟩ := hc
      subst hc1
      subst hc2
      rw [if_pos ⟨rfl, rfl⟩] at hkg
      rcases hkg with ⟨a, ha⟩ | ha <;> exact RaChan.noConfusion ha
    · rw [if_neg hc] at hkg
      exact hI.granted_key k jj m2 t hkjj hkm hkt hkg
  · intro k jj hk hjj
    rw [hstk] at hk
    rw [hchan]
    by_cases hc : k = i ∧ jj = j
    · obtain ⟨hc1, hc2⟩ := hc
      subst hc1
      subst hc2
      have hacked := hI.held_acked k jj hk hjj
      rw [h] at hacked
      exact RaChan.noConfusion hacked
    · rw [if_neg hc]
      exact hI.held_acked k jj hk hjj

lemma inv_grant {n : ℕ} {s : Sys n} (hI : Inv s) (i j : Fin n)
    (hij : i ≠ j) (m : ℕ) (hm : (s.node i).msgts = some m)
    (h : s.reqch i j = RaChan.recvd)
    (hg : requestAccessWaits ((s.node j).st)
            (Option.map (fun t => (t, (j : ℕ), 0)) ((s.node j).req))
            (m, (i : ℕ), 0) = false) : Inv (applyGrant s i j) := by
  have hcm := clock_mono (Step.grant s i j hij m hm h hg)
  obtain ⟨hnh, hnw⟩ := waits_false_elim hg
  have hstk : ∀ k, ((applyGrant s i j).node k).st = (s.node k).st := by
    intro k
    by_cases hk : k = j
    · subst hk; simp [applyGrant, Function.update_same]
    · simp [applyGrant, Function.update_noteq hk]
  have hreqk : ∀ k, ((applyGrant s i j).node k).req = (s.node k).req := by
    intro k
    by_cases hk : k = j
    · subst hk; simp [applyGrant, Function.update_same]
    · simp [applyGrant, Function.update_noteq hk]
  have hmsgk : ∀ k, ((applyGrant s i j).node k).msgts = (s.node k).msgts := by
    intro k
    by_cases hk : k = j
    · subst hk; simp [applyGrant, Function.update_same]
    · simp [applyGrant, Function.update_noteq hk]
  have hchan : ∀ a b, (applyGrant s i j).reqch a b =
      if a = i ∧ b = j then RaChan.ackSent (tick ((s.node j).clock))
      else s.reqch a b := fun _ _ => rfl
  refine ⟨?_, ?_, ?_, ?_, ?_, ?_, ?_, ?_⟩
  · intro k
    rw [hchan, if_neg (fun hc => hij (hc.1.symm.trans hc.2))]
    exact hI.self_idle k
  · intro k hk
    rw [hstk] at hk
    by_cases hki : k = i
    · subst hki
      have hidle := (hI.released_clean k hk).2.2 j
      rw [h] at hidle
      exact RaChan.noConfusion hidle
    · obtain ⟨ha, hb, hc⟩ := hI.released_clean k hk
      refine ⟨by rw [hreqk]; exact ha, by rw [hmsgk]; exact hb, ?_⟩
      intro jj
      rw [hchan, if_neg (fun hcc => hki hcc.1)]
      exact hc jj
  · intro k hk
    rw [hstk] at hk
    obtain ⟨t, ht, htc⟩ := hI.active_req k hk
    exact ⟨t, by rw [hreqk]; exact ht, le_trans htc (hcm k)⟩
  · intro k t m2 hkt hkm
    rw [hreqk] at hkt
    rw [hmsgk] at hkm
    exact hI.msg_gt k t m2 hkt hkm
  · intro k jj hne
    rw [hchan] at hne
    by_cases hc : k = i ∧ jj = j
    · obtain ⟨hc1, _⟩ := hc
      subst hc1
      exact ⟨m, by rw [hmsgk]; exact hm⟩
    · rw [if_neg hc] at hne
      obtain ⟨m2, hm2⟩ := hI.chan_msg k jj hne
      exact ⟨m2, by rw [hmsgk]; exact hm2⟩
  · intro k jj m2 hkjj hkm hkr
    rw [hmsgk] at hkm
    rw [hchan] at hkr
    by_cases hc : k = i ∧ jj = j
    · obtain ⟨hc1, hc2⟩ := hc
      subst hc1
      subst hc2
      rw [hm] at hkm
      injection hkm with hkm
      have hold := hI.recv_clock k jj m hkjj hm (Or.inl h)
      subst hkm
      simp only [applyGrant, Function.update_same, tick]
      omega
    · rw [if_neg hc] at hkr
      exact lt_of_lt_of_le (hI.recv_clock k jj m2 hkjj hkm hkr) (hcm jj)
  · intro k jj m2 t hkjj hkm hkt hkg
    rw [hmsgk] at hkm
    rw [hreqk] at hkt
    rw [hchan] at hkg
    by_cases hc : k = i ∧ jj = j
    · obtain ⟨hc1, hc2⟩ := hc
      subst hc1
      subst hc2
      rw [hm] at hkm
      injection hkm with hkm
      subst hkm
      have hvij : ((jj : ℕ) : ℕ) ≠ (k : ℕ) := by
        intro hv
        exact hkjj (Fin.val_injective hv).symm
      cases hstj : (s.node jj).st with
      | RELEASED =>
          have hrn := (hI.released_clean jj hstj).1
          rw [hkt] at hrn
          exact Option.noConfusion hrn
      | WANTED =>
          have hnot := hnw t hstj hkt
          have hne : ((t : ℕ), ((jj : ℕ) : ℕ)) ≠ (m, (k : ℕ)) :=
            fun hcc => hvij (congrArg Prod.snd hcc)
          exact keyLt_of_not_keyLt hne hnot
      | HELD => exact absurd hstj hnh
    · rw [if_neg hc] at hkg
      exact hI.granted_key k jj m2 t hkjj hkm hkt hkg
  · intro k jj hk hjj
    rw [hstk] at hk
    rw [hchan]
    by_cases hc : k = i ∧ jj = j
    · obtain ⟨hc1, hc2⟩ := hc
      subst hc1
      subst hc2
      have hacked := hI.held_acked k jj hk hjj
      rw [h] at hacked
      exact RaChan.noConfusion hacked
    · rw [if_neg hc]
      exact hI.held_acked k jj hk hjj

lemma inv_recvAck {n : ℕ} {s : Sys n} (hI : Inv s) (i j : Fin n)
    (hij : i ≠ j) (a : ℕ) (h : s.reqch i j = RaChan.ackSent a) :
    Inv (applyRecvAck s i j a) := by
  have hcm := clock_mono (Step.recvAck s i j hij a h)
  have hstk : ∀ k, ((applyRecvAck s i j a).node k).st = (s.node k).st := by
    intro k
    by_cases hk : k = i
    · subst hk; simp [applyRecvAck, Function.update_same]
    · simp [applyRecvAck, Function.update_noteq hk]
  have hreqk : ∀ k, ((applyRecvAck s i j a).node k).req = (s.node k).req := by
    intro k
    by_cases hk : k = i
    · subst hk; simp [applyRecvAck, Function.update_same]
    · simp [applyRecvAck, Function.update_noteq hk]
  have hmsgk : ∀ k, ((applyRecvAck s i j a).node k).msgts = (s.node k).msgts := by
    intro k
    by_cases hk : k = i
    · subst hk; simp [applyRecvAck, Function.update_same]
    · simp [applyRecvAck, Function.update_noteq hk]
  have hchan : ∀ x y, (applyRecvAck s i j a).reqch x y =
      if x = i ∧ y = j then RaChan.acked else s.reqch x y := fun _ _ => rfl
  refine ⟨?_, ?_, ?_, ?_, ?_, ?_, ?_, ?_⟩
  · intro k
    rw [hchan, if_neg (fun hc => hij (hc.1.symm.trans hc.2))]
    exact hI.self_idle k
  · intro k hk
    rw [hstk] at hk
    by_cases hki : k = i
    · subst hki
      have hidle := (hI.released_clean k hk).2.2 j
      rw [h] at hidle
      exact RaChan.noConfusion hidle
    · obtain ⟨ha, hb, hc⟩ := hI.released_clean k hk
      refine ⟨by rw [hreqk]; exact ha, by rw [hmsgk]; exact hb, ?_⟩
      intro jj
      rw [hchan, if_neg (fun hcc => hki hcc.1)]
      exact hc jj
  · intro k hk
    rw [hstk] at hk
    obtain ⟨t, ht, htc⟩ := hI.active_req k hk
    exact ⟨t, by rw [hreqk]; exact ht, le_trans htc (hcm k)⟩
  · intro k t m2 hkt hkm
    rw [hreqk] at hkt
    rw [hmsgk] at hkm
    exact hI.msg_gt k t m2 hkt hkm
  · intro k jj hne
    rw [hchan] at hne
    by_cases hc : k = i ∧ jj = j
    · obtain ⟨hc1, hc2⟩ := hc
      subst hc1
      subst hc2
      obtain ⟨m2, hm2⟩ := hI.chan_msg k jj (by rw [h]; exact fun hcc => RaChan.noConfusion hcc)
      exact ⟨m2, by rw [hmsgk]; exact hm2⟩
    · rw [if_neg hc] at hne
      obtain ⟨m2, hm2⟩ := hI.chan_msg k jj hne
      exact ⟨m2, by rw [hmsgk]; exact hm2⟩
  · intro k jj m2 hkjj hkm hkr
    rw [hmsgk] at hkm
    rw [hchan] at hkr
    by_cases hc : k = i ∧ jj = j
    · obtain ⟨hc1, hc2⟩ := hc
      subst hc1
      subst hc2
      have hold := hI.recv_clock k jj m2 hkjj hkm
        (by rw [h]; exact Or.inr (Or.inl ⟨a, rfl⟩))
      exact lt_of_lt_of_le hold (hcm jj)
    · rw [if_neg hc] at hkr
      exact lt_of_lt_of_le (hI.recv_clock k jj m2 hkjj hkm hkr) (hcm jj)
  · intro k jj m2 t hkjj hkm hkt hkg
    rw [hmsgk] at hkm
    rw [hreqk] at hkt
    rw [hchan] at hkg
    by_cases hc : k = i ∧ jj = j
    · obtain ⟨hc1, hc2⟩ := hc
      subst hc1
      subst hc2
      exact hI.granted_key k jj m2 t hkjj hkm hkt (by rw [h]; exact Or.inl ⟨a, rfl⟩)
    · rw [if_neg hc] at hkg
      exact hI.granted_key k jj m2 t hkjj hkm hkt hkg
  · intro k jj hk hjj
    rw [hstk] at hk
    rw [hchan]
    by_cases hc : k = i ∧ jj = j
    · rw [if_pos hc]
    · rw [if_neg hc]
      exact hI.held_acked k jj hk hjj

lemma inv_enter {n : ℕ} {s : Sys n} (hI : Inv s) (i : Fin n)
    (h1 : (s.node i).st = RAState.WANTED)
    (h2 : ∀ j, j ≠ i → s.reqch i j = RaChan.acked) : Inv (applyEnter s i) := by
  have hstk : ∀ k, k ≠ i → ((applyEnter s i).node k).st = (s.node k).st := by
    intro k hk
    simp [applyEnter, Function.update_noteq hk]
  have hsti : ((applyEnter s i).node i).st = RAState.HELD := by
    simp [applyEnter, Function.update_same]
  have hreqk : ∀ k, ((applyEnter s i).node k).req = (s.node k).req := by
    intro k
    by_cases hk : k = i
    · subst hk; simp [applyEnter, Function.update_same]
    · simp [applyEnter, Function.update_noteq hk]
  have hmsgk : ∀ k, ((applyEnter s i).node k).msgts = (s.node k).msgts := by
    intro k
    by_cases hk : k = i
    · subst hk; simp [applyEnter, Function.update_same]
    · simp [applyEnter, Function.update_noteq hk]
  have hclkk : ∀ k, ((applyEnter s i).node k).clock = (s.node k).clock := by
    intro k
    by_cases hk : k = i
    · subst hk; simp [applyEnter, Function.update_same]
    · simp [applyEnter, Function.update_noteq hk]
  have hchan : ∀ x y, (applyEnter s i).reqch x y = s.reqch x y := fun _ _ => rfl
  refine ⟨?_, ?_, ?_, ?_, ?_, ?_, ?_, ?_⟩
  · intro k
    exact hI.self_idle k
  · intro k hk
    by_cases hki : k = i
    · subst hki
      rw [hsti] at hk
      exact RAState.noConfusion hk
    · rw [hstk k hki] at hk
      obtain ⟨ha, hb, hc⟩ := hI.released_clean k hk
      exact ⟨by rw [hreqk]; exact ha, by rw [hmsgk]; exact hb, hc⟩
  · intro k hk
    by_cases hki : k = i
    · subst hki
      obtain ⟨t, ht, htc⟩ := hI.active_req k (by rw [h1]; exact fun hcc => RAState.noConfusion hcc)
      exact ⟨t, by rw [hreqk]; exact ht, by rw [hclkk]; exact htc⟩
    · rw [hstk k hki] at hk
      obtain ⟨t, ht, htc⟩ := hI.active_req k hk
      exact ⟨t, by rw [hreqk]; exact ht, by rw [hclkk]; exact htc⟩
  · intro k t m2 hkt hkm
    rw [hreqk] at hkt
    rw [hmsgk] at hkm
    exact hI.msg_gt k t m2 hkt hkm
  · intro k jj hne
    obtain ⟨m2, hm2⟩ := hI.chan_msg k jj hne
    exact ⟨m2, by rw [hmsgk]; exact hm2⟩
  · intro k jj m2 hkjj hkm hkr
    rw [hmsgk] at hkm
    rw [hclkk]
    exact hI.recv_clock k jj m2 hkjj hkm hkr
  · intro k jj m2 t hkjj hkm hkt hkg
    rw [hmsgk] at hkm
    rw [hreqk] at hkt
    exact hI.granted_key k jj m2 t hkjj hkm hkt hkg
  · intro k jj hk hjj
    by_cases hki : k = i
    · subst hki
      exact h2 jj hjj
    · rw [hstk k hki] at hk
      exact hI.held_acked k jj hk hjj

lemma inv_exitCS {n : ℕ} {s : Sys n} (hI : Inv s) (i : Fin n)
    (h : (s.node i).st = RAState.HELD) : Inv (applyExitCS s i) := by
  have hsti : ((applyExitCS s i).node i).st = RAState.RELEASED := by
    simp [applyExitCS, Function.update_same]
  have hreqi : ((applyExitCS s i).node i).req = none := by
    simp [applyExitCS, Function.update_same]
  have hmsgi : ((applyExitCS s i).node i).msgts = none := by
    simp [applyExitCS, Function.update_same]
  have hnodek : ∀ k, k ≠ i → (applyExitCS s i).node k = s.node k := by
    intro k hk
    simp [applyExitCS, Function.update_noteq hk]
  have hclkk : ∀ k, ((applyExitCS s i).node k).clock = (s.node k).clock := by
    intro k
    by_cases hk : k = i
    · subst hk; simp [applyExitCS, Function.update_same]
    · rw [hnodek k hk]
  have hchan : ∀ x y, (applyExitCS s i).reqch x y =
      if x = i then RaChan.idle else s.reqch x y := fun _ _ => rfl
  refine ⟨?_, ?_, ?_, ?_, ?_, ?_, ?_, ?_⟩
  · intro k
    rw [hchan]
    by_cases hk : k = i
    · rw [if_pos hk]
    · rw [if_neg hk]
      exact hI.self_idle k
  · intro k hk
    by_cases hki : k = i
    · subst hki
      refine ⟨hreqi, hmsgi, ?_⟩
      intro jj
      rw [hchan, if_pos rfl]
    · rw [hnodek k hki] at hk ⊢
      obtain ⟨ha, hb, hc⟩ := hI.released_clean k hk
      refine ⟨ha, hb, ?_⟩
      intro jj
      rw [hchan, if_neg hki]
      exact hc jj
  · intro k hk
    by_cases hki : k = i
    · subst hki
      rw [hsti] at hk
      exact absurd rfl hk
    · rw [hnodek k hki] at hk ⊢
      exact hI.active_req k hk
  · intro k t m2 hkt hkm
    by_cases hki : k = i
    · subst hki
      rw [hmsgi] at hkm
      exact Option.noConfusion hkm
    · rw [hnodek k hki] at hkt hkm
      exact hI.msg_gt k t m2 hkt hkm
  · intro k jj hne
    rw [hchan] at hne
    by_cases hki : k = i
    · rw [if_pos hki] at hne
      exact absurd rfl hne
    · rw [if_neg hki] at hne
      obtain ⟨m2, hm2⟩ := hI.chan_msg k jj hne
      exact ⟨m2, by rw [hnodek k hki]; exact hm2⟩
  · intro k jj m2 hkjj hkm hkr
    rw [hchan] at hkr
    by_cases hki : k = i
    · subst hki
      rw [hmsgi] at hkm
      exact Option.noConfusion hkm
    · rw [if_neg hki] at hkr
      rw [hnodek k hki] at hkm
      rw [hclkk]
      exact hI.recv_clock k jj m2 hkjj hkm hkr
  · intro k jj m2 t hkjj hkm hkt hkg
    rw [hchan] at hkg
    by_cases hki : k = i
    · subst hki
      rw [hmsgi] at hkm
      exact Option.noConfusion hkm
    · rw [if_neg hki] at hkg
      rw [hnodek k hki] at hkm
      by_cases hji : jj = i
      · subst hji
        rw [hreqi] at hkt
        exact Option.noConfusion hkt
      · rw [hnodek jj hji] at hkt
        exact hI.granted_key k jj m2 t hkjj hkm hkt hkg
  · intro k jj hk hjj
    by_cases hki : k = i
    · subst hki
      rw [hsti] at hk
      exact RAState.noConfusion hk
    · rw [hnodek k hki] at hk
      rw [hchan, if_neg hki]
      exact hI.held_acked k jj hk hjj

lemma inv_sendRelease {n : ℕ} {s : Sys n} (hI : Inv s) (i : Fin n)
    (h : (s.node i).st = RAState.RELEASED) : Inv (applySendRelease s i) := by
  have hcm := clock_mono (Step.sendRelease s i h)
  have hstk : ∀ k, ((applySendRelease s i).node k).st = (s.node k).st := by
    intro k
    by_cases hk : k = i
    · subst hk; simp [applySendRelease, Function.update_same]
    · simp [applySendRelease, Function.update_noteq hk]
  have hreqk : ∀ k, ((applySendRelease s i).node k).req = (s.node k).req := by
    intro k
    by_cases hk : k = i
    · subst hk; simp [applySendRelease, Function.update_same]
    · simp [applySendRelease, Function.update_noteq hk]
  have hmsgk : ∀ k, ((applySendRelease s i).node k).msgts = (s.node k).msgts := by
    intro k
    by_cases hk : k = i
    · subst hk; simp [applySendRelease, Function.update_same]
    · simp [applySendRelease, Function.update_noteq hk]
  have hchan : ∀ x y, (applySendRelease s i).reqch x y = s.reqch x y := fun _ _ => rfl
  refine ⟨?_, ?_, ?_, ?_, ?_, ?_, ?_, ?_⟩
  · intro k
    exact hI.self_idle k
  · intro k hk
    rw [hstk] at hk
    obtain ⟨ha, hb, hc⟩ := hI.released_clean k hk
    exact ⟨by rw [hreqk]; exact ha, by rw [hmsgk]; exact hb, hc⟩
  · intro k hk
    rw [hstk] at hk
    obtain ⟨t, ht, htc⟩ := hI.active_req k hk
    exact ⟨t, by rw [hreqk]; exact ht, le_trans htc (hcm k)⟩
  · intro k t m2 hkt hkm
    rw [hreqk] at hkt
    rw [hmsgk] at hkm
    exact hI.msg_gt k t m2 hkt hkm
  · intro k jj hne
    obtain ⟨m2, hm2⟩ := hI.chan_msg k jj hne
    exact ⟨m2, by rw [hmsgk]; exact hm2⟩
  · intro k jj m2 hkjj hkm hkr
    rw [hmsgk] at hkm
    exact lt_of_lt_of_le (hI.recv_clock k jj m2 hkjj hkm hkr) (hcm jj)
  · intro k jj m2 t hkjj hkm hkt hkg
    rw [hmsgk] at hkm
    rw [hreqk] at hkt
    exact hI.granted_key k jj m2 t hkjj hkm hkt hkg
  · intro k jj hk hjj
    rw [hstk] at hk
    exact hI.held_acked k jj hk hjj

lemma inv_recvRelease {n : ℕ} {s : Sys n} (hI : Inv s) (i j : Fin n)
    (hij : i ≠ j) (a : ℕ) (r : List ℕ) (h : s.relch i j = a :: r) :
    Inv (applyRecvRelease s i j a r) := by
  have hcm := clock_mono (Step.recvRelease s i j hij a r h)
  have hstk : ∀ k, ((applyRecvRelease s i j a r).node k).st = (s.node k).st := by
    intro k
    by_cases hk : k = j
    · subst hk; simp [applyRecvRelease, Function.update_same]
    · simp [applyRecvRelease, Function.update_noteq hk]
  have hreqk : ∀ k, ((applyRecvRelease s i j a r).node k).req = (s.node k).req := by
    intro k
    by_cases hk : k = j
    · subst hk; simp [applyRecvRelease, Function.update_same]
    · simp [applyRecvRelease, Function.update_noteq hk]
  have hmsgk : ∀ k, ((applyRecvRelease s i j a r).node k).msgts = (s.node k).msgts := by
    intro k
    by_cases hk : k = j
    · subst hk; simp [applyRecvRelease, Function.update_same]
    · simp [applyRecvRelease, Function.update_noteq hk]
  have hchan : ∀ x y, (applyRecvRelease s i j a r).reqch x y = s.reqch x y :=
    fun _ _ => rfl
  refine ⟨?_, ?_, ?_, ?_, ?_, ?_, ?_, ?_⟩
  · intro k
    exact hI.self_idle k
  · intro k hk
    rw [hstk] at hk
    obtain ⟨ha, hb, hc⟩ := hI.released_clean k hk
    exact ⟨by rw [hreqk]; exact ha, by rw [hmsgk]; exact hb, hc⟩
  · intro k hk
    rw [hstk] at hk
    obtain ⟨t, ht, htc⟩ := hI.active_req k hk
    exact ⟨t, by rw [hreqk]; exact ht, le_trans htc (hcm k)⟩
  · intro k t m2 hkt hkm
    rw [hreqk] at hkt
    rw [hmsgk] at hkm
    exact hI.msg_gt k t m2 hkt hkm
  · intro k jj hne
    obtain ⟨m2, hm2⟩ := hI.chan_msg k jj hne
    exact ⟨m2, by rw [hmsgk]; exact hm2⟩
  · intro k jj m2 hkjj hkm hkr
    rw [hmsgk] at hkm
    exact lt_of_lt_of_le (hI.recv_clock k jj m2 hkjj hkm hkr) (hcm jj)
  · intro k jj m2 t hkjj hkm hkt hkg
    rw [hmsgk] at hkm
    rw [hreqk] at hkt
    exact hI.granted_key k jj m2 t hkjj hkm hkt hkg
  · intro k jj hk hjj
    rw [hstk] at hk
    exact hI.held_acked k jj hk hjj

lemma inv_init (n : ℕ) : Inv (initSys n) := by
  refine ⟨?_, ?_, ?_, ?_, ?_, ?_, ?_, ?_⟩
  · intro _; rfl
  · intro _ _; exact ⟨rfl, rfl, fun _ => rfl⟩
  · intro _ hk; exact absurd rfl hk
  · intro k t m hkt hkm; exact Option.noConfusion hkm
  · intro k j hne; exact absurd rfl hne
  · intro k j m _ hkm _; exact Option.noConfusion hkm
  · intro k j m t _ hkm _ _; exact Option.noConfusion hkm
  · intro k j hk _; exact RAState.noConfusion hk

lemma inv_step {n : ℕ} {s s2 : Sys n} (hI : Inv s) (hstep : Step s s2) : Inv s2 := by
  cases hstep with
  | startRequest i h => exact inv_startRequest hI i h
  | broadcast i h1 h2 => exact inv_broadcast hI i h1 h2
  | recvRequest i j hij m hm h => exact inv_recvRequest hI i j hij m hm h
  | grant i j hij m hm h hg => exact inv_grant hI i j hij m hm h hg
  | recvAck i j hij a h => exact inv_recvAck hI i j hij a h
  | enter i h1 h2 => exact inv_enter hI i h1 h2
  | exitCS i h => exact inv_exitCS hI i h
  | sendRelease i h => exact inv_sendRelease hI i h
  | recvRelease i j hij a r h => exact inv_recvRelease hI i j hij a r h

lemma reachable_inv {n : ℕ} {s : Sys n} (h : Reachable s) : Inv s := by
  induction h with
  | refl => exact inv_init n
  | tail _ hbc ih => exact inv_step ih hbc

/-- Claim C1: mutual exclusion. In every execution of the system — any
number of nodes with unique ids, any interleaving of the driver, handler,
broadcast and release actions, with every RPC delivered and replied (no peer
crashes, no timeouts) — at most one node is in state HELD at any reachable
state; equivalently, the HELD intervals of distinct nodes never overlap. -/
theorem mutual_exclusion {n : ℕ} {s : Sys n} (hs : Reachable s) (i j : Fin n)
    (hi : (s.node i).st = RAState.HELD) (hj : (s.node j).st = RAState.HELD) :
    i = j := by
  by_contra hij
  have hI := reachable_inv hs
  have hchij : s.reqch i j = RaChan.acked :=
    hI.held_acked i j hi (fun hji => hij hji.symm)
  have hchji : s.reqch j i = RaChan.acked :=
    hI.held_acked j i hj hij
  obtain ⟨mi, hmi⟩ := hI.chan_msg i j
    (by rw [hchij]; exact fun hc => RaChan.noConfusion hc)
  obtain ⟨mj, hmj⟩ := hI.chan_msg j i
    (by rw [hchji]; exact fun hc => RaChan.noConfusion hc)
  obtain ⟨ti, hti, _⟩ := hI.active_req i
    (by rw [hi]; exact fun hc => RAState.noConfusion hc)
  obtain ⟨tj, htj, _⟩ := hI.active_req j
    (by rw [hj]; exact fun hc => RAState.noConfusion hc)
  have h1 : ti < mi := hI.msg_gt i ti mi hti hmi
  have h2 : tj < mj := hI.msg_gt j tj mj htj hmj
  have k1 : keyLt (mi, (i : ℕ)) (tj, (j : ℕ)) :=
    hI.granted_key i j mi tj hij hmi htj (by rw [hchij]; exact Or.inr rfl)
  have k2 : keyLt (mj, (j : ℕ)) (ti, (i : ℕ)) :=
    hI.granted_key j i mj ti (fun hji => hij hji.symm) hmj hti
      (by rw [hchji]; exact Or.inr rfl)
  have l1 : mi ≤ tj := keyLt_le_left k1
  have l2 : mj ≤ ti := keyLt_le_left k2
  omega

/-- Single-node demonstration state after the WANTED transition. -/
def demo1 : Sys 1 := applyStartRequest (initSys 1) 0

/-- Demonstration state after the broadcast. -/
def demo2 : Sys 1 := applyBroadcast demo1 0

/-- Demonstration state after entering the critical section: node 0 HELD. -/
def demo3 : Sys 1 := applyEnter demo2 0

lemma demo3_reachable : Reachable demo3 := by
  have h1 : Step (initSys 1) demo1 := Step.startRequest (initSys 1) 0 rfl
  have h2 : Step demo1 demo2 := Step.broadcast demo1 0 (by decide) (by decide)
  have h3 : Step demo2 demo3 :=
    Step.enter demo2 0 (by decide) (fun j hj => absurd (Subsingleton.elim j 0) hj)
  exact Relation.ReflTransGen.tail
    (Relation.ReflTransGen.tail (Relation.ReflTransGen.single h1) h2) h3

/-- Witness for the mutual-exclusion theorem: a concrete reachable state of
a one-node system in which node 0 is HELD, where the theorem yields 0 = 0. -/
theorem mutual_exclusion_witness :
    Reachable demo3 ∧ (demo3.node 0).st = RAState.HELD ∧ (0 : Fin 1) = 0 :=
  ⟨demo3_reachable, by decide,
   mutual_exclusion demo3_reachable 0 0 (by decide) (by decide)⟩

end DistPrint
